import Mathlib

/-!
Shallow embedding of the concurrent-probing core of the
Find-The-Admin-Panel repository (scripts/rate_limiter.py,
scripts/proxy_manager.py, scripts/path_fuzzer.py, scripts/detection.py,
finder.py), together with proofs settling the frozen claims about it.

Conventions of the embedding:
* Python floats (rates, token counts, timestamps) are modelled as `ℚ`;
  Python ints as `ℤ` or `ℕ`.
* Wall-clock reads (`time.monotonic()`, `time.time()`) are modelled by
  passing the elapsed time (respectively the current time) as an explicit
  parameter to each operation that reads the clock.
* Python strings are modelled as `List Char`.
* Python dicts keyed by host name are modelled as association lists
  whose keys are inserted at most once.
-/

namespace FindAdmin

/-! ## scripts/constants.py -/

def RATE_LIMIT_MIN : ℚ := 1

def RATE_LIMIT_MAX : ℚ := 1000

def DEFAULT_RATE_LIMIT : ℚ := 50

def DEFAULT_BURST_SIZE : ℤ := 10

/-! ## scripts/rate_limiter.py : TokenBucket -/

/-- State of `TokenBucket` (rate_limiter.py lines 22-29).  The
`last_update` clock field is replaced by passing the elapsed time to
`acquire` explicitly. -/
structure TokenBucket where
  rate : ℚ
  capacity : ℤ
  tokens : ℚ
  deriving Repr, DecidableEq

namespace TokenBucket

/-- `TokenBucket.__init__` (rate_limiter.py lines 24-29): the rate is
clamped to `[RATE_LIMIT_MIN, RATE_LIMIT_MAX]`, the capacity to at least 1,
and `tokens` is initialised to the *unclamped* constructor argument
(`self.tokens = float(capacity)`). -/
def init (rate : ℚ) (capacity : ℤ) : TokenBucket :=
  { rate := max RATE_LIMIT_MIN (min rate RATE_LIMIT_MAX)
    capacity := max 1 capacity
    tokens := (capacity : ℚ) }

/-- `TokenBucket.acquire` (rate_limiter.py lines 31-46): refill by
`elapsed * rate` capped at capacity, then deduct `req` tokens when at
least `req` are available.  `elapsed` stands for `now - self.last_update`. -/
def acquire (b : TokenBucket) (elapsed : ℚ) (req : ℤ) : TokenBucket × Bool :=
  let t := min (b.capacity : ℚ) (b.tokens + elapsed * b.rate)
  if (req : ℚ) ≤ t then
    ({ b with tokens := t - (req : ℚ) }, true)
  else
    ({ b with tokens := t }, false)

/-- `TokenBucket.update_rate` (rate_limiter.py lines 62-63). -/
def update_rate (b : TokenBucket) (new_rate : ℚ) : TokenBucket :=
  { b with rate := max RATE_LIMIT_MIN (min new_rate RATE_LIMIT_MAX) }

/-- One `acquire` step of a call sequence, keeping only the bucket. -/
def step (b : TokenBucket) (c : ℚ × ℤ) : TokenBucket :=
  (b.acquire c.1 c.2).1

/-- The bucket states reached after each call of a sequence (the head is
the initial state). -/
def trace (b : TokenBucket) (calls : List (ℚ × ℤ)) : List TokenBucket :=
  calls.scanl step b

/-- The invariant claimed for the bucket. -/
def Inv (b : TokenBucket) : Prop :=
  0 ≤ b.tokens ∧ b.tokens ≤ (b.capacity : ℚ)

end TokenBucket

/-! ### C1 lemmas -/

theorem tokenBucket_rate_nonneg (rate : ℚ) (capacity : ℤ) :
    0 ≤ (TokenBucket.init rate capacity).rate := by
  have h : (0 : ℚ) ≤ RATE_LIMIT_MIN := by norm_num [RATE_LIMIT_MIN]
  exact le_trans h (le_max_left _ _)

theorem tokenBucket_acquire_preserves {b : TokenBucket} (elapsed : ℚ) (req : ℤ)
    (hrate : 0 ≤ b.rate) (helapsed : 0 ≤ elapsed) (hreq : 0 ≤ req)
    (hinv : b.Inv) : ((b.acquire elapsed req).1).Inv ∧ (b.acquire elapsed req).1.rate = b.rate ∧
      (b.acquire elapsed req).1.capacity = b.capacity := by
  obtain ⟨h0, hc⟩ := hinv
  have hreqQ : (0 : ℚ) ≤ (req : ℚ) := by exact_mod_cast hreq
  have hcap : (0 : ℚ) ≤ (b.capacity : ℚ) := le_trans h0 hc
  have hrefill0 : 0 ≤ b.tokens + elapsed * b.rate :=
    add_nonneg h0 (mul_nonneg helapsed hrate)
  have ht0 : 0 ≤ min (b.capacity : ℚ) (b.tokens + elapsed * b.rate) :=
    le_min hcap hrefill0
  have htc : min (b.capacity : ℚ) (b.tokens + elapsed * b.rate) ≤ (b.capacity : ℚ) :=
    min_le_left _ _
  simp only [TokenBucket.acquire, TokenBucket.Inv]
  split
  next hle =>
    refine ⟨⟨?_, ?_⟩, rfl, rfl⟩
    · dsimp only
      linarith
    · dsimp only
      linarith
  next hle =>
    exact ⟨⟨ht0, htc⟩, rfl, rfl⟩

theorem tokenBucket_trace_inv_aux (calls : List (ℚ × ℤ)) :
    ∀ b : TokenBucket, 0 ≤ b.rate → b.Inv →
      (∀ c ∈ calls, 0 ≤ c.1 ∧ 0 ≤ c.2) →
      ∀ b' ∈ TokenBucket.trace b calls, b'.Inv := by
  induction calls with
  | nil =>
    intro b _ hinv _ b' hb'
    simp only [TokenBucket.trace, List.scanl, List.mem_singleton] at hb'
    exact hb' ▸ hinv
  | cons c rest ih =>
    intro b hrate hinv hcalls b' hb'
    have hc := hcalls c (List.mem_cons_self _ _)
    have hstep := tokenBucket_acquire_preserves c.1 c.2 hrate hc.1 hc.2 hinv
    simp only [TokenBucket.trace, List.scanl, List.mem_cons] at hb'
    rcases hb' with h | h
    · exact h ▸ hinv
    · exact ih (TokenBucket.step b c) (hstep.2.1 ▸ hrate) hstep.1
        (fun x hx => hcalls x (List.mem_cons_of_mem _ hx)) b' h

/-- C1 (amended): starting from a bucket constructed with a nonnegative
capacity argument, for every sequence of `acquire` calls whose requested
token counts and elapsed times are nonnegative, `0 ≤ tokens ≤ capacity`
holds after every call (and initially). -/
theorem tokenBucket_sequence_invariant (rate : ℚ) (capacity : ℤ)
    (calls : List (ℚ × ℤ)) (hcap : 0 ≤ capacity)
    (hcalls : ∀ c ∈ calls, 0 ≤ c.1 ∧ 0 ≤ c.2) :
    ∀ b' ∈ TokenBucket.trace (TokenBucket.init rate capacity) calls,
      0 ≤ b'.tokens ∧ b'.tokens ≤ (b'.capacity : ℚ) := by
  have hinv : (TokenBucket.init rate capacity).Inv := by
    simp only [TokenBucket.Inv, TokenBucket.init]
    constructor
    · exact_mod_cast hcap
    · exact_mod_cast le_max_right 1 capacity
  exact tokenBucket_trace_inv_aux calls _ (tokenBucket_rate_nonneg rate capacity) hinv hcalls

/-- Witness for C1 (amended): after a concrete two-call run the final
state satisfies the invariant. -/
theorem tokenBucket_sequence_invariant_witness :
    0 ≤ (TokenBucket.step (TokenBucket.step (TokenBucket.init 2 3) (0, 1)) (1, 2)).tokens
    ∧ (TokenBucket.step (TokenBucket.step (TokenBucket.init 2 3) (0, 1)) (1, 2)).tokens
        ≤ (((TokenBucket.step (TokenBucket.step (TokenBucket.init 2 3) (0, 1)) (1, 2)).capacity
            : ℤ) : ℚ) :=
  tokenBucket_sequence_invariant 2 3 [(0, 1), (1, 2)] (by norm_num)
    (by intro c hc; fin_cases hc <;> norm_num)
    (TokenBucket.step (TokenBucket.step (TokenBucket.init 2 3) (0, 1)) (1, 2))
    (by simp [TokenBucket.trace, List.scanl])

/-- C1 counterexample: the claim quantifies over *any* token counts, but
`acquire` with a negative requested count (`tokens >= tokens` holds, then
`self.tokens -= tokens` adds) pushes the stored tokens above capacity:
a fresh bucket of capacity 1 holds 2 tokens after `acquire(-1)`. -/
theorem tokenBucket_negative_request_counterexample :
    ¬ (((TokenBucket.init 1 1).acquire 0 (-1)).1.tokens ≤
        ((((TokenBucket.init 1 1).acquire 0 (-1)).1.capacity : ℤ) : ℚ)) := by
  norm_num [TokenBucket.init, TokenBucket.acquire, RATE_LIMIT_MIN, RATE_LIMIT_MAX]

/-! ## scripts/rate_limiter.py : AdaptiveRateLimiter -/

/-- `RateLimitStats` (rate_limiter.py lines 13-19). -/
structure RateLimitStats where
  total_requests : ℕ
  throttled_requests : ℕ
  rate_limit_hits : ℕ
  current_rate : ℚ
  last_429_time : ℚ
  deriving Repr, DecidableEq

/-- The all-zero default `RateLimitStats()`. -/
def RateLimitStats.zero : RateLimitStats := ⟨0, 0, 0, 0, 0⟩

/-- Lookup in an association list (models `dict[key]` access). -/
def alistFind {α : Type} (l : List (ℕ × α)) (h : ℕ) : Option α :=
  (l.find? (fun x => x.1 == h)).map (fun x => x.2)

/-- Update the value at an existing key in place (models `dict[key] = v`
for a key already present; keys are inserted at most once). -/
def alistModify {α : Type} (l : List (ℕ × α)) (h : ℕ) (f : α → α) : List (ℕ × α) :=
  l.map (fun x => if x.1 == h then (x.1, f x.2) else x)

/-- State of `AdaptiveRateLimiter` (rate_limiter.py lines 66-92).
Host names are modelled as `ℕ`. -/
structure AdaptiveRateLimiter where
  current_rate : ℚ
  min_rate : ℚ
  max_rate : ℚ
  backoff_factor : ℚ
  recovery_factor : ℚ
  bucket : TokenBucket
  stats : RateLimitStats
  host_buckets : List (ℕ × TokenBucket)
  host_stats : List (ℕ × RateLimitStats)
  consecutive_successes : ℕ
  success_threshold : ℕ
  deriving Repr, DecidableEq

namespace AdaptiveRateLimiter

/-- `AdaptiveRateLimiter.__init__` (rate_limiter.py lines 68-92): note
that `current_rate` is set to the constructor argument without clamping. -/
def init (initial_rate : ℚ) (burst_size : ℤ)
    (min_rate max_rate backoff_factor recovery_factor : ℚ) : AdaptiveRateLimiter :=
  { current_rate := initial_rate
    min_rate := min_rate
    max_rate := max_rate
    backoff_factor := backoff_factor
    recovery_factor := recovery_factor
    bucket := TokenBucket.init initial_rate burst_size
    stats := { RateLimitStats.zero with current_rate := initial_rate }
    host_buckets := []
    host_stats := []
    consecutive_successes := 0
    success_threshold := 50 }

/-- `AdaptiveRateLimiter.acquire` (rate_limiter.py lines 94-116):
increments `total_requests`, consumes a global token, then (when a host
is given) lazily creates the per-host bucket — rate `current_rate / 2`,
capacity `max(1, DEFAULT_BURST_SIZE // 2)` — and consumes a token from
it.  `eg`/`eh` are the elapsed times seen by the global and the host
bucket respectively. -/
def acquire (s : AdaptiveRateLimiter) (host : Option ℕ) (eg eh : ℚ) :
    AdaptiveRateLimiter × Bool :=
  let s0 := { s with stats := { s.stats with total_requests := s.stats.total_requests + 1 } }
  let gr := s0.bucket.acquire eg 1
  let s1 := { s0 with bucket := gr.1 }
  if gr.2 = false then
    ({ s1 with stats := { s1.stats with throttled_requests := s1.stats.throttled_requests + 1 } },
      false)
  else
    match host with
    | none => (s1, true)
    | some h =>
      let pre := alistFind s1.host_buckets h
      let hb0 := pre.getD (TokenBucket.init (s1.current_rate / 2) (max 1 (DEFAULT_BURST_SIZE / 2)))
      let hr := hb0.acquire eh 1
      let s2 := { s1 with
        host_buckets :=
          match pre with
          | none => s1.host_buckets ++ [(h, hr.1)]
          | some _ => alistModify s1.host_buckets h (fun _ => hr.1)
        host_stats :=
          match pre with
          | none => s1.host_stats ++ [(h, RateLimitStats.zero)]
          | some _ => s1.host_stats }
      if hr.2 = false then
        ({ s2 with stats := { s2.stats with throttled_requests := s2.stats.throttled_requests + 1 } },
          false)
      else
        ({ s2 with host_stats :=
            alistModify s2.host_stats h (fun st => { st with total_requests := st.total_requests + 1 }) },
          true)

/-- `AdaptiveRateLimiter._handle_rate_limit_hit` (rate_limiter.py lines
127-145). -/
def handleRateLimitHit (s : AdaptiveRateLimiter) (host : Option ℕ) (now : ℚ) :
    AdaptiveRateLimiter :=
  let new_rate := max s.min_rate (s.current_rate * s.backoff_factor)
  let s1 := { s with
    stats := { s.stats with
      rate_limit_hits := s.stats.rate_limit_hits + 1
      last_429_time := now
      current_rate := new_rate }
    consecutive_successes := 0
    current_rate := new_rate
    bucket := s.bucket.update_rate new_rate }
  match host with
  | none => s1
  | some h =>
    if (alistFind s1.host_buckets h).isSome then
      let host_rate := max s1.min_rate (new_rate / 2)
      { s1 with
        host_buckets := alistModify s1.host_buckets h (fun b => b.update_rate host_rate)
        host_stats := alistModify s1.host_stats h
          (fun st => { st with
            rate_limit_hits := st.rate_limit_hits + 1
            last_429_time := now
            current_rate := host_rate }) }
    else s1

/-- `AdaptiveRateLimiter._handle_success` (rate_limiter.py lines 147-159). -/
def handleSuccess (s : AdaptiveRateLimiter) : AdaptiveRateLimiter :=
  let cs := s.consecutive_successes + 1
  if s.success_threshold ≤ cs then
    let new_rate := min s.max_rate (s.current_rate * s.recovery_factor)
    { s with
      consecutive_successes := 0
      current_rate := new_rate
      bucket := s.bucket.update_rate new_rate
      stats := { s.stats with current_rate := new_rate } }
  else
    { s with consecutive_successes := cs }

/-- `AdaptiveRateLimiter.on_response` (rate_limiter.py lines 121-125). -/
def on_response (s : AdaptiveRateLimiter) (status : ℤ) (host : Option ℕ) (now : ℚ) :
    AdaptiveRateLimiter :=
  if status = 429 then handleRateLimitHit s host now
  else if 200 ≤ status ∧ status < 400 then handleSuccess s
  else s

/-- Fold `on_response` over a list of observed responses
`(status, host, now)`. -/
def runResponses (s : AdaptiveRateLimiter) (events : List (ℤ × Option ℕ × ℚ)) :
    AdaptiveRateLimiter :=
  events.foldl (fun s e => on_response s e.1 e.2.1 e.2.2) s

end AdaptiveRateLimiter

/-! ### C2 lemmas -/

theorem arl_429_sets_backoff (s : AdaptiveRateLimiter) (host : Option ℕ) (now : ℚ) :
    (AdaptiveRateLimiter.on_response s 429 host now).current_rate
        = max s.min_rate (s.current_rate * s.backoff_factor)
    ∧ (AdaptiveRateLimiter.on_response s 429 host now).consecutive_successes = 0 := by
  cases host with
  | none => simp [AdaptiveRateLimiter.on_response, AdaptiveRateLimiter.handleRateLimitHit]
  | some h =>
    by_cases hfound : (alistFind s.host_buckets h).isSome
    · simp [AdaptiveRateLimiter.on_response, AdaptiveRateLimiter.handleRateLimitHit, hfound]
    · simp [AdaptiveRateLimiter.on_response, AdaptiveRateLimiter.handleRateLimitHit, hfound]

theorem arl_success_run (stati : List ℤ) :
    ∀ s : AdaptiveRateLimiter, s.success_threshold = 50 →
      (∀ st ∈ stati, 200 ≤ st ∧ st < 400) →
      s.consecutive_successes + stati.length = 50 →
      stati ≠ [] →
      (AdaptiveRateLimiter.runResponses s (stati.map (fun st => (st, none, 0)))).current_rate
          = min s.max_rate (s.current_rate * s.recovery_factor)
      ∧ (AdaptiveRateLimiter.runResponses s
            (stati.map (fun st => (st, none, 0)))).consecutive_successes = 0 := by
  induction stati with
  | nil => intro s _ _ _ hne; exact absurd rfl hne
  | cons st rest ih =>
    intro s hthr hok hsum _
    have hst := hok st (List.mem_cons_self _ _)
    have h429 : ¬ (st = 429) := by omega
    have hstep : AdaptiveRateLimiter.on_response s st none 0
        = AdaptiveRateLimiter.handleSuccess s := by
      simp [AdaptiveRateLimiter.on_response, h429, hst.1, hst.2]
    have hfold : AdaptiveRateLimiter.runResponses s ((st :: rest).map (fun st => (st, none, 0)))
        = AdaptiveRateLimiter.runResponses (AdaptiveRateLimiter.on_response s st none 0)
            (rest.map (fun st => (st, none, 0))) := rfl
    rw [hfold, hstep]
    cases rest with
    | nil =>
      have hcs : s.consecutive_successes + 1 = 50 := by simpa using hsum
      have htrig : s.success_threshold ≤ s.consecutive_successes + 1 := by omega
      simp [AdaptiveRateLimiter.runResponses, AdaptiveRateLimiter.handleSuccess, htrig]
    | cons st2 rest2 =>
      have hlen : s.consecutive_successes + (rest2.length + 1 + 1) = 50 := by
        simpa [List.length_cons] using hsum
      have hlt : ¬ (s.success_threshold ≤ s.consecutive_successes + 1) := by omega
      have hsuc : AdaptiveRateLimiter.handleSuccess s
          = { s with consecutive_successes := s.consecutive_successes + 1 } := by
        simp [AdaptiveRateLimiter.handleSuccess, hlt]
      rw [hsuc]
      have hres := ih { s with consecutive_successes := s.consecutive_successes + 1 }
        (by simpa using hthr)
        (fun x hx => hok x (List.mem_cons_of_mem _ hx))
        (by simp only [List.length_cons]; omega)
        (by simp)
      simpa using hres

/-- C2: a 429 response sets `current_rate` to
`max(min_rate, current_rate * backoff_factor)` and zeroes the
consecutive-success counter; from a zero counter, 50 consecutive
responses with status in `[200, 400)` multiply the rate by
`recovery_factor` capped at `max_rate` and zero the counter again. -/
theorem arl_backoff_and_recovery (s : AdaptiveRateLimiter) (host : Option ℕ) (now : ℚ)
    (stati : List ℤ) (hthr : s.success_threshold = 50) (hcs : s.consecutive_successes = 0)
    (hlen : stati.length = 50) (hok : ∀ st ∈ stati, 200 ≤ st ∧ st < 400) :
    ((AdaptiveRateLimiter.on_response s 429 host now).current_rate
        = max s.min_rate (s.current_rate * s.backoff_factor)
      ∧ (AdaptiveRateLimiter.on_response s 429 host now).consecutive_successes = 0)
    ∧ ((AdaptiveRateLimiter.runResponses s (stati.map (fun st => (st, none, 0)))).current_rate
        = min s.max_rate (s.current_rate * s.recovery_factor)
      ∧ (AdaptiveRateLimiter.runResponses s
            (stati.map (fun st => (st, none, 0)))).consecutive_successes = 0) :=
  ⟨arl_429_sets_backoff s host now,
   arl_success_run stati s hthr hok (by omega)
     (by intro h; rw [h] at hlen; simp at hlen)⟩

/-- The limiter as configured by the scanner defaults
(`DEFAULT_RATE_LIMIT`, `DEFAULT_BURST_SIZE`, and the keyword defaults of
`AdaptiveRateLimiter.__init__`). -/
def arlDefault : AdaptiveRateLimiter :=
  AdaptiveRateLimiter.init 50 10 1 100 (1/2) (11/10)

/-- Witness for C2 at the default limiter and 50 responses of status 200. -/
theorem arl_backoff_and_recovery_witness :
    ((AdaptiveRateLimiter.on_response arlDefault 429 none 0).current_rate
        = max arlDefault.min_rate (arlDefault.current_rate * arlDefault.backoff_factor)
      ∧ (AdaptiveRateLimiter.on_response arlDefault 429 none 0).consecutive_successes = 0)
    ∧ ((AdaptiveRateLimiter.runResponses arlDefault
          ((List.replicate 50 200).map (fun st => (st, none, 0)))).current_rate
        = min arlDefault.max_rate (arlDefault.current_rate * arlDefault.recovery_factor)
      ∧ (AdaptiveRateLimiter.runResponses arlDefault
            ((List.replicate 50 200).map (fun st => (st, none, 0)))).consecutive_successes = 0) :=
  arl_backoff_and_recovery arlDefault none 0 (List.replicate 50 200) rfl rfl
    (by simp)
    (by intro st hst; have h := List.eq_of_mem_replicate hst; subst h; norm_num)

/-! ### C8 lemmas -/

theorem arl_hrl_fields (s : AdaptiveRateLimiter) (host : Option ℕ) (now : ℚ) :
    (AdaptiveRateLimiter.handleRateLimitHit s host now).current_rate
        = max s.min_rate (s.current_rate * s.backoff_factor)
    ∧ (AdaptiveRateLimiter.handleRateLimitHit s host now).min_rate = s.min_rate
    ∧ (AdaptiveRateLimiter.handleRateLimitHit s host now).max_rate = s.max_rate
    ∧ (AdaptiveRateLimiter.handleRateLimitHit s host now).backoff_factor = s.backoff_factor
    ∧ (AdaptiveRateLimiter.handleRateLimitHit s host now).recovery_factor = s.recovery_factor := by
  cases host with
  | none => simp [AdaptiveRateLimiter.handleRateLimitHit]
  | some h =>
    by_cases hfound : (alistFind s.host_buckets h).isSome
    · simp [AdaptiveRateLimiter.handleRateLimitHit, hfound]
    · simp [AdaptiveRateLimiter.handleRateLimitHit, hfound]

theorem arl_step_bounds (s : AdaptiveRateLimiter) (status : ℤ) (host : Option ℕ) (now : ℚ)
    (hm0 : 0 ≤ s.min_rate) (hmM : s.min_rate ≤ s.max_rate)
    (hbf0 : 0 ≤ s.backoff_factor) (hbf1 : s.backoff_factor ≤ 1)
    (hrf : 1 ≤ s.recovery_factor)
    (h1 : s.min_rate ≤ s.current_rate) (h2 : s.current_rate ≤ s.max_rate) :
    (AdaptiveRateLimiter.on_response s status host now).min_rate = s.min_rate
    ∧ (AdaptiveRateLimiter.on_response s status host now).max_rate = s.max_rate
    ∧ (AdaptiveRateLimiter.on_response s status host now).backoff_factor = s.backoff_factor
    ∧ (AdaptiveRateLimiter.on_response s status host now).recovery_factor = s.recovery_factor
    ∧ s.min_rate ≤ (AdaptiveRateLimiter.on_response s status host now).current_rate
    ∧ (AdaptiveRateLimiter.on_response s status host now).current_rate ≤ s.max_rate := by
  have hr0 : 0 ≤ s.current_rate := le_trans hm0 h1
  by_cases h429 : status = 429
  · have hred : AdaptiveRateLimiter.on_response s status host now
        = AdaptiveRateLimiter.handleRateLimitHit s host now := by
      simp [AdaptiveRateLimiter.on_response, h429]
    obtain ⟨hc, hm, hM, hb, hr⟩ := arl_hrl_fields s host now
    rw [hred]
    refine ⟨hm, hM, hb, hr, ?_, ?_⟩
    · rw [hc]; exact le_max_left _ _
    · rw [hc]
      exact max_le hmM (le_trans (mul_le_of_le_one_right hr0 hbf1) h2)
  · by_cases hsucc : 200 ≤ status ∧ status < 400
    · have hred : AdaptiveRateLimiter.on_response s status host now
          = AdaptiveRateLimiter.handleSuccess s := by
        simp [AdaptiveRateLimiter.on_response, h429, hsucc]
      rw [hred]
      by_cases htr : s.success_threshold ≤ s.consecutive_successes + 1
      · have heq : AdaptiveRateLimiter.handleSuccess s = { s with
            consecutive_successes := 0
            current_rate := min s.max_rate (s.current_rate * s.recovery_factor)
            bucket := s.bucket.update_rate (min s.max_rate (s.current_rate * s.recovery_factor))
            stats := { s.stats with
              current_rate := min s.max_rate (s.current_rate * s.recovery_factor) } } := by
          simp [AdaptiveRateLimiter.handleSuccess, htr]
        rw [heq]
        exact ⟨rfl, rfl, rfl, rfl,
          le_min hmM (le_trans h1 (le_mul_of_one_le_right hr0 hrf)), min_le_left _ _⟩
      · have heq : AdaptiveRateLimiter.handleSuccess s
            = { s with consecutive_successes := s.consecutive_successes + 1 } := by
          simp [AdaptiveRateLimiter.handleSuccess, htr]
        rw [heq]
        exact ⟨rfl, rfl, rfl, rfl, h1, h2⟩
    · have hred : AdaptiveRateLimiter.on_response s status host now = s := by
        simp [AdaptiveRateLimiter.on_response, h429, hsucc]
      rw [hred]
      exact ⟨rfl, rfl, rfl, rfl, h1, h2⟩

theorem arl_run_bounds (events : List (ℤ × Option ℕ × ℚ)) :
    ∀ s : AdaptiveRateLimiter,
      0 ≤ s.min_rate → s.min_rate ≤ s.max_rate →
      0 ≤ s.backoff_factor → s.backoff_factor ≤ 1 → 1 ≤ s.recovery_factor →
      s.min_rate ≤ s.current_rate → s.current_rate ≤ s.max_rate →
      (AdaptiveRateLimiter.runResponses s events).min_rate = s.min_rate
      ∧ (AdaptiveRateLimiter.runResponses s events).max_rate = s.max_rate
      ∧ s.min_rate ≤ (AdaptiveRateLimiter.runResponses s events).current_rate
      ∧ (AdaptiveRateLimiter.runResponses s events).current_rate ≤ s.max_rate := by
  induction events with
  | nil => intro s _ _ _ _ _ h1 h2; exact ⟨rfl, rfl, h1, h2⟩
  | cons e rest ih =>
    intro s hm0 hmM hbf0 hbf1 hrf h1 h2
    obtain ⟨em, eM, eb, er, el, eu⟩ :=
      arl_step_bounds s e.1 e.2.1 e.2.2 hm0 hmM hbf0 hbf1 hrf h1 h2
    have hfold : AdaptiveRateLimiter.runResponses s (e :: rest)
        = AdaptiveRateLimiter.runResponses (AdaptiveRateLimiter.on_response s e.1 e.2.1 e.2.2)
            rest := rfl
    rw [hfold]
    obtain ⟨rm, rM, rl, ru⟩ := ih (AdaptiveRateLimiter.on_response s e.1 e.2.1 e.2.2)
      (by rw [em]; exact hm0) (by rw [em, eM]; exact hmM)
      (by rw [eb]; exact hbf0) (by rw [eb]; exact hbf1) (by rw [er]; exact hrf)
      (by rw [em]; exact el) (by rw [eM]; exact eu)
    refine ⟨rm.trans em, rM.trans eM, ?_, ?_⟩
    · rw [em] at rl; exact rl
    · rw [eM] at ru; exact ru

/-- C8 (amended): provided the constructor's `initial_rate` already lies
in `[min_rate, max_rate]`, `0 ≤ min_rate ≤ max_rate`,
`backoff_factor ∈ [0, 1]` and `recovery_factor ≥ 1` (all satisfied by
the defaults), `current_rate` lies in `[min_rate, max_rate]` immediately
after construction and after any sequence of responses. -/
theorem arl_rate_always_clamped (initial_rate : ℚ) (burst_size : ℤ) (m M bf rf : ℚ)
    (events : List (ℤ × Option ℕ × ℚ))
    (hm0 : 0 ≤ m) (hmM : m ≤ M) (hi1 : m ≤ initial_rate) (hi2 : initial_rate ≤ M)
    (hbf0 : 0 ≤ bf) (hbf1 : bf ≤ 1) (hrf : 1 ≤ rf) :
    (m ≤ (AdaptiveRateLimiter.init initial_rate burst_size m M bf rf).current_rate
      ∧ (AdaptiveRateLimiter.init initial_rate burst_size m M bf rf).current_rate ≤ M)
    ∧ (m ≤ (AdaptiveRateLimiter.runResponses
            (AdaptiveRateLimiter.init initial_rate burst_size m M bf rf) events).current_rate
      ∧ (AdaptiveRateLimiter.runResponses
            (AdaptiveRateLimiter.init initial_rate burst_size m M bf rf) events).current_rate
          ≤ M) := by
  have h := arl_run_bounds events (AdaptiveRateLimiter.init initial_rate burst_size m M bf rf)
    hm0 hmM hbf0 hbf1 hrf hi1 hi2
  exact ⟨⟨hi1, hi2⟩, h.2.2⟩

/-- Witness for C8 (amended) at the default configuration, after one 429
and one 200 response. -/
theorem arl_rate_always_clamped_witness :
    ((1 : ℚ) ≤ (AdaptiveRateLimiter.init 50 10 1 100 (1/2) (11/10)).current_rate
      ∧ (AdaptiveRateLimiter.init 50 10 1 100 (1/2) (11/10)).current_rate ≤ 100)
    ∧ ((1 : ℚ) ≤ (AdaptiveRateLimiter.runResponses
            (AdaptiveRateLimiter.init 50 10 1 100 (1/2) (11/10))
            [(429, none, 0), (200, none, 0)]).current_rate
      ∧ (AdaptiveRateLimiter.runResponses
            (AdaptiveRateLimiter.init 50 10 1 100 (1/2) (11/10))
            [(429, none, 0), (200, none, 0)]).current_rate ≤ 100) :=
  arl_rate_always_clamped 50 10 1 100 (1/2) (11/10) [(429, none, 0), (200, none, 0)]
    (by norm_num) (by norm_num) (by norm_num) (by norm_num)
    (by norm_num) (by norm_num) (by norm_num)

/-! ### C7 and C10 lemmas -/

theorem alistFind_append_of_none {α : Type} (l : List (ℕ × α)) (h : ℕ) (a : α)
    (hl : alistFind l h = none) : alistFind (l ++ [(h, a)]) h = some a := by
  induction l with
  | nil => simp [alistFind]
  | cons x xs ih =>
    cases hbe : (x.1 == h) with
    | true =>
      exfalso
      simp [alistFind, List.find?_cons, hbe] at hl
    | false =>
      simp only [alistFind, List.cons_append, List.find?_cons, hbe, cond_false] at hl ⊢
      exact ih hl

theorem tokenBucket_acquire_shape (b : TokenBucket) (e : ℚ) (r : ℤ) :
    (b.acquire e r).1.rate = b.rate ∧ (b.acquire e r).1.capacity = b.capacity := by
  simp only [TokenBucket.acquire]
  split <;> exact ⟨rfl, rfl⟩

theorem tokenBucket_acquire_true_tokens (b : TokenBucket) (e : ℚ) (r : ℤ)
    (hb : (b.acquire e r).2 = true) :
    (b.acquire e r).1.tokens = min ((b.capacity : ℚ)) (b.tokens + e * b.rate) - (r : ℚ) := by
  by_cases hle : ((r : ℚ) ≤ min ((b.capacity : ℚ)) (b.tokens + e * b.rate))
  · simp [TokenBucket.acquire, hle]
  · simp [TokenBucket.acquire, hle] at hb

theorem arl_acquire_host_buckets_eq (s : AdaptiveRateLimiter) (h : ℕ) (eg eh : ℚ)
    (hnew : alistFind s.host_buckets h = none)
    (hglob : (s.bucket.acquire eg 1).2 = true) :
    (AdaptiveRateLimiter.acquire s (some h) eg eh).1.host_buckets
      = s.host_buckets ++ [(h, ((TokenBucket.init (s.current_rate / 2)
            (max 1 (DEFAULT_BURST_SIZE / 2))).acquire eh 1).1)] := by
  simp only [AdaptiveRateLimiter.acquire, hglob, Bool.true_eq_false, if_false, hnew,
    Option.getD_none]
  split <;> rfl

/-- C7 (amended): on the first probe to a distinct host — provided the
global bucket granted its token, otherwise `acquire` returns early and
creates nothing — the per-host bucket is created with rate
`current_rate / 2` (clamped to `[RATE_LIMIT_MIN, RATE_LIMIT_MAX]` by the
`TokenBucket` constructor) and capacity `max(1, DEFAULT_BURST_SIZE // 2)`
(= 5, from the module constant, regardless of the limiter's configured
burst size); and any `acquire` with a host returns `True` only if both
the global bucket and that host's bucket granted a token. -/
theorem arl_acquire_host_bucket (s : AdaptiveRateLimiter) (h : ℕ) (eg eh : ℚ)
    (hnew : alistFind s.host_buckets h = none)
    (hglob : (s.bucket.acquire eg 1).2 = true) :
    ((alistFind ((AdaptiveRateLimiter.acquire s (some h) eg eh).1.host_buckets) h).map
        (fun b => (b.rate, b.capacity)))
      = some (max RATE_LIMIT_MIN (min (s.current_rate / 2) RATE_LIMIT_MAX),
              max 1 (DEFAULT_BURST_SIZE / 2))
    ∧ (∀ s' : AdaptiveRateLimiter, ∀ h' : ℕ, ∀ eg' eh' : ℚ,
        (AdaptiveRateLimiter.acquire s' (some h') eg' eh').2 = true →
          (s'.bucket.acquire eg' 1).2 = true
          ∧ (((alistFind s'.host_buckets h').getD
                (TokenBucket.init (s'.current_rate / 2)
                  (max 1 (DEFAULT_BURST_SIZE / 2)))).acquire eh' 1).2 = true) := by
  constructor
  · rw [arl_acquire_host_buckets_eq s h eg eh hnew hglob,
      alistFind_append_of_none s.host_buckets h _ hnew]
    have hshape := tokenBucket_acquire_shape
      (TokenBucket.init (s.current_rate / 2) (max 1 (DEFAULT_BURST_SIZE / 2))) eh 1
    simp only [Option.map_some', hshape.1, hshape.2]
    simp only [TokenBucket.init, Option.some.injEq, Prod.mk.injEq, true_and]
    decide
  · intro s' h' eg' eh' hres
    by_cases hg : (s'.bucket.acquire eg' 1).2 = true
    · refine ⟨hg, ?_⟩
      by_cases hh : (((alistFind s'.host_buckets h').getD
          (TokenBucket.init (s'.current_rate / 2)
            (max 1 (DEFAULT_BURST_SIZE / 2)))).acquire eh' 1).2 = true
      · exact hh
      · exfalso
        simp only [Bool.not_eq_true] at hh
        simp [AdaptiveRateLimiter.acquire, hg, hh] at hres
    · exfalso
      simp only [Bool.not_eq_true] at hg
      simp [AdaptiveRateLimiter.acquire, hg] at hres

/-- The limiter constructed with a burst size (20) different from the
module default. -/
def arlBurst20 : AdaptiveRateLimiter :=
  AdaptiveRateLimiter.init 50 20 1 100 (1/2) (11/10)

/-- Witness for C7 (amended): the first probe to host 7 of the default
limiter creates that host's bucket with the stated rate and capacity. -/
theorem arl_acquire_host_bucket_witness :
    ((alistFind ((AdaptiveRateLimiter.acquire arlDefault (some 7) 0 0).1.host_buckets) 7).map
        (fun b => (b.rate, b.capacity)))
      = some (max RATE_LIMIT_MIN (min (arlDefault.current_rate / 2) RATE_LIMIT_MAX),
              max 1 (DEFAULT_BURST_SIZE / 2))
    ∧ (∀ s' : AdaptiveRateLimiter, ∀ h' : ℕ, ∀ eg' eh' : ℚ,
        (AdaptiveRateLimiter.acquire s' (some h') eg' eh').2 = true →
          (s'.bucket.acquire eg' 1).2 = true
          ∧ (((alistFind s'.host_buckets h').getD
                (TokenBucket.init (s'.current_rate / 2)
                  (max 1 (DEFAULT_BURST_SIZE / 2)))).acquire eh' 1).2 = true) :=
  arl_acquire_host_bucket arlDefault 7 0 0 rfl
    (by norm_num [arlDefault, AdaptiveRateLimiter.init, TokenBucket.init, TokenBucket.acquire,
      RATE_LIMIT_MIN, RATE_LIMIT_MAX, min_def, max_def])

/-- C7 counterexample: with the limiter configured with burst size 20,
the per-host bucket created on the first probe has capacity
`max(1, DEFAULT_BURST_SIZE // 2) = 5`, not half of the configured
(global) burst size, which would be 10. -/
theorem arl_host_bucket_burst_counterexample :
    ((alistFind ((AdaptiveRateLimiter.acquire arlBurst20 (some 0) 0 0).1.host_buckets) 0).map
        (fun b => b.capacity)) = some 5
    ∧ ¬ ((5 : ℤ) = 20 / 2) := by
  have hglob : (arlBurst20.bucket.acquire 0 1).2 = true := by
    norm_num [arlBurst20, AdaptiveRateLimiter.init, TokenBucket.init, TokenBucket.acquire,
      RATE_LIMIT_MIN, RATE_LIMIT_MAX, min_def, max_def]
  constructor
  · rw [arl_acquire_host_buckets_eq arlBurst20 0 0 0 rfl hglob,
      alistFind_append_of_none arlBurst20.host_buckets 0 _ rfl]
    have hshape := tokenBucket_acquire_shape
      (TokenBucket.init (arlBurst20.current_rate / 2) (max 1 (DEFAULT_BURST_SIZE / 2))) 0 1
    simp only [Option.map_some', hshape.2]
    decide
  · decide

/-- C10: when the global bucket grants its token but the per-host bucket
then refuses, `acquire` returns `False` although the global bucket's
token count was already decremented (it equals the refilled amount minus
one) and `total_requests` was already incremented: a failed acquisition
still consumes global capacity. -/
theorem arl_acquire_not_atomic (s : AdaptiveRateLimiter) (h : ℕ) (hb : TokenBucket) (eg eh : ℚ)
    (hfound : alistFind s.host_buckets h = some hb)
    (hglob : (s.bucket.acquire eg 1).2 = true)
    (hhost : (hb.acquire eh 1).2 = false) :
    (AdaptiveRateLimiter.acquire s (some h) eg eh).2 = false
    ∧ (AdaptiveRateLimiter.acquire s (some h) eg eh).1.bucket = (s.bucket.acquire eg 1).1
    ∧ (AdaptiveRateLimiter.acquire s (some h) eg eh).1.bucket.tokens
        = min ((s.bucket.capacity : ℚ)) (s.bucket.tokens + eg * s.bucket.rate) - 1
    ∧ (AdaptiveRateLimiter.acquire s (some h) eg eh).1.stats.total_requests
        = s.stats.total_requests + 1 := by
  have htok := tokenBucket_acquire_true_tokens s.bucket eg 1 hglob
  refine ⟨?_, ?_, ?_, ?_⟩ <;>
    simp [AdaptiveRateLimiter.acquire, hglob, hfound, hhost, htok]

/-- A default limiter that already owns an exhausted bucket for host 0. -/
def c10state : AdaptiveRateLimiter :=
  { arlDefault with
    host_buckets := [(0, { rate := 25, capacity := 5, tokens := 0 })]
    host_stats := [(0, RateLimitStats.zero)] }

/-- Witness for C10: concrete state in which the global bucket grants
and the host-0 bucket (zero tokens, zero elapsed) refuses. -/
theorem arl_acquire_not_atomic_witness :
    (AdaptiveRateLimiter.acquire c10state (some 0) 0 0).2 = false
    ∧ (AdaptiveRateLimiter.acquire c10state (some 0) 0 0).1.bucket
        = (c10state.bucket.acquire 0 1).1
    ∧ (AdaptiveRateLimiter.acquire c10state (some 0) 0 0).1.bucket.tokens
        = min ((c10state.bucket.capacity : ℚ))
            (c10state.bucket.tokens + 0 * c10state.bucket.rate) - 1
    ∧ (AdaptiveRateLimiter.acquire c10state (some 0) 0 0).1.stats.total_requests
        = c10state.stats.total_requests + 1 :=
  arl_acquire_not_atomic c10state 0 ⟨25, 5, 0⟩ 0 0 (by rfl)
    (by norm_num [c10state, arlDefault, AdaptiveRateLimiter.init, TokenBucket.init,
      TokenBucket.acquire, RATE_LIMIT_MIN, RATE_LIMIT_MAX, min_def, max_def])
    (by norm_num [TokenBucket.acquire, min_def])

/-- C8 counterexample: constructed with an arbitrary `initial_rate`
(here 500 against `max_rate = 100`), `current_rate` is *not* clamped by
`__init__`, so it exceeds `max_rate` immediately after construction. -/
theorem arl_init_unclamped_counterexample :
    ¬ ((AdaptiveRateLimiter.init 500 10 1 100 (1/2) (11/10)).current_rate
        ≤ (AdaptiveRateLimiter.init 500 10 1 100 (1/2) (11/10)).max_rate) := by
  norm_num [AdaptiveRateLimiter.init]

/-! ## scripts/proxy_manager.py -/

/-- `ProxyStats` (proxy_manager.py lines 17-27). -/
structure ProxyStats where
  total_requests : ℕ
  successful_requests : ℕ
  failed_requests : ℕ
  total_response_time : ℚ
  last_used : ℚ
  last_success : ℚ
  last_failure : ℚ
  consecutive_failures : ℕ
  is_healthy : Bool
  deriving Repr, DecidableEq

/-- The dataclass defaults: all counters zero, healthy. -/
def ProxyStats.fresh : ProxyStats := ⟨0, 0, 0, 0, 0, 0, 0, 0, true⟩

/-- `Proxy` (proxy_manager.py lines 42-71).  The Python field `type` is
named `ptype` (`type` is reserved in Lean); equality in the pool is by
`url` (`Proxy.__eq__`). -/
structure Proxy where
  url : List Char
  ptype : List Char
  host : List Char
  port : ℕ
  username : Option (List Char)
  password : Option (List Char)
  stats : ProxyStats
  deriving Repr, DecidableEq

/-- `ProxyManager.record_success` (proxy_manager.py lines 186-192). -/
def record_success (p : Proxy) (now rt : ℚ) : Proxy :=
  { p with stats := { p.stats with
      total_requests := p.stats.total_requests + 1
      successful_requests := p.stats.successful_requests + 1
      total_response_time := p.stats.total_response_time + rt
      last_success := now
      consecutive_failures := 0
      is_healthy := true } }

/-- `ProxyManager.record_failure` (proxy_manager.py lines 194-205):
increments the failure counters and marks the proxy unhealthy when
`consecutive_failures >= max_failures`. -/
def record_failure (max_failures : ℕ) (p : Proxy) (now : ℚ) : Proxy :=
  let st := { p.stats with
      total_requests := p.stats.total_requests + 1
      failed_requests := p.stats.failed_requests + 1
      last_failure := now
      consecutive_failures := p.stats.consecutive_failures + 1 }
  if max_failures ≤ st.consecutive_failures then
    { p with stats := { st with is_healthy := false } }
  else
    { p with stats := st }

/-- One success/failure event observed against a proxy. -/
inductive ProxyEvent where
  | success (now rt : ℚ)
  | failure (now : ℚ)
  deriving Repr, DecidableEq

def applyEvent (max_failures : ℕ) (p : Proxy) (e : ProxyEvent) : Proxy :=
  match e with
  | ProxyEvent.success now rt => record_success p now rt
  | ProxyEvent.failure now => record_failure max_failures p now

def runEvents (max_failures : ℕ) (p : Proxy) (events : List ProxyEvent) : Proxy :=
  events.foldl (applyEvent max_failures) p

/-- The reinstatement performed inside `ProxyManager.get_proxy`
(proxy_manager.py lines 161-163): healthy again, failure counter reset. -/
def healProxy (p : Proxy) : Proxy :=
  { p with stats := { p.stats with is_healthy := true, consecutive_failures := 0 } }

/-- The healthy-candidate list computed by `ProxyManager.get_proxy`
(proxy_manager.py lines 154-167): the healthy proxies, or — when none is
healthy — those proxies whose last failure is strictly older than
`health_check_interval`, reinstated as healthy.  Selection then picks
from this list. -/
def eligibleProxies (health_check_interval : ℚ) (proxies : List Proxy) (now : ℚ) :
    List Proxy :=
  let healthy := proxies.filter (fun p => p.stats.is_healthy)
  if healthy.isEmpty then
    (proxies.filter (fun p => health_check_interval < now - p.stats.last_failure)).map healProxy
  else healthy

/-! ### C3 lemmas -/

theorem applyEvent_health (max_failures : ℕ) (p : Proxy) (e : ProxyEvent)
    (hmf : 1 ≤ max_failures)
    (hp : p.stats.is_healthy = true ↔ p.stats.consecutive_failures < max_failures) :
    (applyEvent max_failures p e).stats.is_healthy = true
      ↔ (applyEvent max_failures p e).stats.consecutive_failures < max_failures := by
  cases e with
  | success now rt =>
    simp only [applyEvent, record_success]
    simp only [true_iff, iff_true]
    omega
  | failure now =>
    simp only [applyEvent, record_failure]
    by_cases hge : max_failures ≤ p.stats.consecutive_failures + 1
    · simp only [hge, if_true]
      constructor
      · intro h; exact absurd h (by simp)
      · intro h; omega
    · simp only [hge, if_false]
      constructor
      · intro _; omega
      · intro _; exact hp.mpr (by omega)

theorem runEvents_health (max_failures : ℕ) (events : List ProxyEvent)
    (hmf : 1 ≤ max_failures) :
    ∀ p : Proxy,
      (p.stats.is_healthy = true ↔ p.stats.consecutive_failures < max_failures) →
      ((runEvents max_failures p events).stats.is_healthy = true
        ↔ (runEvents max_failures p events).stats.consecutive_failures < max_failures) := by
  induction events with
  | nil => intro p hp; exact hp
  | cons e rest ih =>
    intro p hp
    exact ih (applyEvent max_failures p e) (applyEvent_health max_failures p e hmf hp)

/-- C3 (amended): starting from a proxy with a fresh (healthy, zero)
failure counter, after any interleaving of successes and failures the
proxy is unhealthy exactly when its consecutive-failure count has
reached `max_failures` (and never before); any single success resets the
counter to zero and marks it healthy; and when no healthy proxy exists,
`get_proxy` reinstates exactly those proxies whose last failure is
*strictly* older than `health_check_interval`
(`now - last_failure > health_check_interval`). -/
theorem proxy_health_lifecycle (max_failures : ℕ) (interval now : ℚ)
    (p : Proxy) (events : List ProxyEvent) (proxies : List Proxy) (q : Proxy)
    (hmf : 1 ≤ max_failures)
    (hc0 : p.stats.consecutive_failures = 0) (hh0 : p.stats.is_healthy = true) :
    ((runEvents max_failures p events).stats.is_healthy = true
      ↔ (runEvents max_failures p events).stats.consecutive_failures < max_failures)
    ∧ (∀ now' rt : ℚ, (record_success p now' rt).stats.consecutive_failures = 0
        ∧ (record_success p now' rt).stats.is_healthy = true)
    ∧ ((proxies.filter (fun r => r.stats.is_healthy)).isEmpty = true → q ∈ proxies →
        interval < now - q.stats.last_failure →
        healProxy q ∈ eligibleProxies interval proxies now) := by
  refine ⟨?_, ?_, ?_⟩
  · exact runEvents_health max_failures events hmf p (by rw [hh0, hc0]; simp; omega)
  · intro now' rt
    exact ⟨rfl, rfl⟩
  · intro hnone hq hint
    simp only [eligibleProxies, hnone, if_true]
    exact List.mem_map_of_mem healProxy (List.mem_filter.mpr ⟨hq, by simpa using hint⟩)

/-- A proxy marked unhealthy whose last failure happened at time 0. -/
def staleProxy : Proxy :=
  { url := ['p'], ptype := ['h'], host := ['h'], port := 80,
    username := none, password := none,
    stats := { ProxyStats.fresh with is_healthy := false, consecutive_failures := 3 } }

/-- Witness for C3 (amended): `max_failures = 3`, three straight
failures, and a reinstatement at `now` strictly past the interval. -/
theorem proxy_health_lifecycle_witness :
    ((runEvents 3 { staleProxy with stats := ProxyStats.fresh }
        [ProxyEvent.failure 1, ProxyEvent.failure 2, ProxyEvent.failure 3]).stats.is_healthy
          = true
      ↔ (runEvents 3 { staleProxy with stats := ProxyStats.fresh }
          [ProxyEvent.failure 1, ProxyEvent.failure 2,
            ProxyEvent.failure 3]).stats.consecutive_failures < 3)
    ∧ (∀ now' rt : ℚ,
        (record_success { staleProxy with stats := ProxyStats.fresh } now' rt).stats.consecutive_failures
            = 0
        ∧ (record_success { staleProxy with stats := ProxyStats.fresh } now' rt).stats.is_healthy
            = true)
    ∧ (([staleProxy].filter (fun r => r.stats.is_healthy)).isEmpty = true →
        staleProxy ∈ [staleProxy] →
        (300 : ℚ) < 301 - staleProxy.stats.last_failure →
        healProxy staleProxy ∈ eligibleProxies 300 [staleProxy] 301) :=
  proxy_health_lifecycle 3 300 301 { staleProxy with stats := ProxyStats.fresh }
    [ProxyEvent.failure 1, ProxyEvent.failure 2, ProxyEvent.failure 3]
    [staleProxy] staleProxy (by norm_num) rfl rfl

/-- C3 counterexample: at `now - last_failure = health_check_interval`
exactly, the code's strict `>` keeps the stale proxy quarantined, while
the claim (`≥`) says it becomes eligible: the candidate list stays
empty, so `get_proxy` returns `None`. -/
theorem proxy_boundary_counterexample :
    (300 : ℚ) - staleProxy.stats.last_failure ≥ 300
    ∧ eligibleProxies 300 [staleProxy] 300 = [] := by
  constructor
  · norm_num [staleProxy, ProxyStats.fresh]
  · norm_num [eligibleProxies, staleProxy, ProxyStats.fresh, List.filter]

/-! ## scripts/input_validator.py and proxy_manager.py : adding proxies

Python strings are `List Char`.  `urllib.parse.urlparse` is modelled by
`pyUrlparse` at the granularity these functions use it: scheme
extraction at the first `:` when the prefix is a syntactic scheme,
netloc after `//` up to a delimiter, credentials at the last `@`,
host/port at the last `:`, with a malformed port — non-numeric, or
numeric but outside CPython's accepted range 0-65535 — modelled as a
parse failure (accessing `parsed.port` raises `ValueError`, which both
callers catch and turn into a `False` return). -/

def isSpaceChar (c : Char) : Bool :=
  c == ' ' || c == '\t' || c == '\n' || c == '\r' || c == '\x0b' || c == '\x0c'

/-- Python `str.strip()`. -/
def pyStrip (s : List Char) : List Char :=
  ((s.dropWhile isSpaceChar).reverse.dropWhile isSpaceChar).reverse

/-- Python `str.lower()` (ASCII). -/
def lowerL (s : List Char) : List Char := s.map Char.toLower

/-- `isPre pre s` : does `s` start with `pre` (Python `str.startswith`). -/
def isPre : List Char → List Char → Bool
  | [], _ => true
  | _ :: _, [] => false
  | a :: as, b :: bs => a == b && isPre as bs

def schemeHttp : List Char := ['h', 't', 't', 'p']

def schemeHttps : List Char := ['h', 't', 't', 'p', 's']

def schemeSocks4 : List Char := ['s', 'o', 'c', 'k', 's', '4']

def schemeSocks5 : List Char := ['s', 'o', 'c', 'k', 's', '5']

/-- The `valid_schemes` prefixes of `validate_proxy_url`
(input_validator.py line 120). -/
def validSchemePrefixes : List (List Char) :=
  [schemeHttp ++ [':', '/', '/'], schemeHttps ++ [':', '/', '/'],
   schemeSocks4 ++ [':', '/', '/'], schemeSocks5 ++ [':', '/', '/']]

/-- The supported proxy types of `add_proxy` (proxy_manager.py line 111). -/
def PROXY_SCHEMES : List (List Char) :=
  [schemeHttp, schemeHttps, schemeSocks4, schemeSocks5]

structure ParsedUrl where
  scheme : List Char
  netloc : List Char
  hostname : List Char
  port : Option ℕ
  username : Option (List Char)
  password : Option (List Char)
  deriving Repr, DecidableEq

/-- Split at the first occurrence of `c`. -/
def splitFirst (c : Char) : List Char → Option (List Char × List Char)
  | [] => none
  | x :: xs =>
    if x == c then some ([], xs)
    else
      match splitFirst c xs with
      | none => none
      | some (a, b) => some (x :: a, b)

/-- Split at the last occurrence of `c`. -/
def splitLast (c : Char) (s : List Char) : Option (List Char × List Char) :=
  match splitFirst c s.reverse with
  | none => none
  | some (a, b) => some (b.reverse, a.reverse)

def isSchemeChar (c : Char) : Bool :=
  c.isAlphanum || c == '+' || c == '-' || c == '.'

def charsToNat (s : List Char) : ℕ :=
  s.foldl (fun acc c => acc * 10 + (c.toNat - 48)) 0

/-- Model of `urllib.parse.urlparse` restricted to the fields used here. -/
def pyUrlparse (url : List Char) : Option ParsedUrl :=
  let sr : List Char × List Char :=
    match splitFirst ':' url with
    | some (pre, post) =>
      if pre ≠ [] ∧ (pre.headD 'a').isAlpha = true ∧ pre.all isSchemeChar = true
      then (lowerL pre, post) else ([], url)
    | none => ([], url)
  let scheme := sr.1
  let rest := sr.2
  let netloc :=
    if isPre ['/', '/'] rest
    then (rest.drop 2).takeWhile (fun c => ¬ (c == '/' || c == '?' || c == '#'))
    else []
  let uh : Option (List Char) × List Char :=
    match splitLast '@' netloc with
    | some (u, hp) => (some u, hp)
    | none => (none, netloc)
  let up : Option (List Char) × Option (List Char) :=
    match uh.1 with
    | none => (none, none)
    | some u =>
      match splitFirst ':' u with
      | some (a, b) => (some a, some b)
      | none => (some u, none)
  let hp : List Char × Option (List Char) :=
    match splitLast ':' uh.2 with
    | some (hs, ps) => (hs, some ps)
    | none => (uh.2, none)
  match hp.2 with
  | some ps =>
    if ps = [] then
      some ⟨scheme, netloc, lowerL hp.1, none, up.1, up.2⟩
    else if ps.all Char.isDigit then
      if charsToNat ps ≤ 65535 then
        some ⟨scheme, netloc, lowerL hp.1, some (charsToNat ps), up.1, up.2⟩
      else none
    else none
  | none => some ⟨scheme, netloc, lowerL hp.1, none, up.1, up.2⟩

/-- The hostname characters accepted by `validate_proxy_url`
(input_validator.py line 139); the IPv4 branch of line 138 is subsumed,
since every IPv4 dotted quad also matches `[a-zA-Z0-9.-]+`. -/
def isHostChar (c : Char) : Bool :=
  c.isAlphanum || c == '.' || c == '-'

/-- `InputValidator.validate_proxy_url` (input_validator.py lines
114-145), returning only the boolean verdict. -/
def validate_proxy_url (proxy_url : List Char) : Bool :=
  if proxy_url = [] then false
  else
    let u := pyStrip proxy_url
    if ¬ (validSchemePrefixes.any (fun s => isPre s (lowerL u))) then false
    else
      match pyUrlparse u with
      | none => false
      | some p =>
        if p.netloc = [] then false
        else if p.hostname = [] then false
        else p.hostname.all isHostChar

/-- `ProxyManager.add_proxy` (proxy_manager.py lines 101-133): validate,
parse (the *unstripped* URL), check the scheme, reject duplicates (proxy
equality is by URL), else append.  All failures return the unchanged
pool with `False`; the `except` clause (lines 131-133) is the parse
failure case. -/
def add_proxy (pool : List Proxy) (proxy_url : List Char) : List Proxy × Bool :=
  if ¬ (validate_proxy_url proxy_url = true) then (pool, false)
  else
    match pyUrlparse proxy_url with
    | none => (pool, false)
    | some parsed =>
      let proxy_type := parsed.scheme
      if ¬ (PROXY_SCHEMES.any (fun s => s == proxy_type) = true) then (pool, false)
      else
        let defaultPort : ℕ := if proxy_type == schemeHttp then 80 else 1080
        let prox : Proxy :=
          { url := proxy_url
            ptype := proxy_type
            host := parsed.hostname
            port := match parsed.port with
              | some n => if n = 0 then defaultPort else n
              | none => defaultPort
            username := parsed.username
            password := parsed.password
            stats := ProxyStats.fresh }
        if pool.any (fun q => q.url == proxy_url) then (pool, false)
        else (pool ++ [prox], true)

/-- One line of `ProxyManager.load_from_file` (proxy_manager.py lines
139-143): strip, skip blank and `#` lines, else `add_proxy` and count. -/
def loadStep (acc : List Proxy × ℕ) (line : List Char) : List Proxy × ℕ :=
  let l := pyStrip line
  if l ≠ [] ∧ isPre ['#'] l = false then
    let r := add_proxy acc.1 l
    (r.1, acc.2 + (if r.2 then 1 else 0))
  else acc

/-- `ProxyManager.load_from_file` (proxy_manager.py lines 135-152): the
file is `none` when missing (`FileNotFoundError` is caught and 0
returned), otherwise the list of its lines. -/
def load_from_file (pool : List Proxy) (file : Option (List (List Char))) :
    List Proxy × ℕ :=
  match file with
  | none => (pool, 0)
  | some lines => lines.foldl loadStep (pool, 0)

/-! ### C9 lemmas -/

theorem add_proxy_cases (pool : List Proxy) (proxy_url : List Char) :
    ((add_proxy pool proxy_url).2 = false ∧ (add_proxy pool proxy_url).1 = pool)
    ∨ ((add_proxy pool proxy_url).2 = true
        ∧ (add_proxy pool proxy_url).1.length = pool.length + 1) := by
  unfold add_proxy
  dsimp only
  repeat' split
  all_goals
    first
      | exact Or.inl ⟨rfl, rfl⟩
      | exact Or.inr ⟨rfl, by simp⟩

theorem loadStep_skip (acc : List Proxy × ℕ) (l0 : List Char)
    (h : pyStrip l0 = [] ∨ isPre ['#'] (pyStrip l0) = true) : loadStep acc l0 = acc := by
  rcases h with h | h
  · simp [loadStep, h]
  · simp [loadStep, h]

theorem load_foldl_length (lines : List (List Char)) :
    ∀ acc : List Proxy × ℕ,
      (lines.foldl loadStep acc).1.length + acc.2
        = acc.1.length + (lines.foldl loadStep acc).2 := by
  induction lines with
  | nil => intro acc; rw [List.foldl_nil]
  | cons l rest ih =>
    intro acc
    rw [List.foldl_cons]
    have hstep : (loadStep acc l).1.length + acc.2
        = acc.1.length + (loadStep acc l).2 := by
      by_cases hkeep : pyStrip l ≠ [] ∧ isPre ['#'] (pyStrip l) = false
      · rcases add_proxy_cases acc.1 (pyStrip l) with ⟨hf, hp⟩ | ⟨ht, hp⟩
        · simp [loadStep, hkeep, hf, hp]
        · simp [loadStep, hkeep, ht, hp]
          omega
      · simp [loadStep, hkeep]
    have hrest := ih (loadStep acc l)
    omega

/-- C9: `add_proxy` returns `False` and leaves the pool unchanged for a
URL the validator rejects, for a parsed scheme outside
http/https/socks4/socks5, and for a URL already present in the pool;
`load_from_file` on a missing file returns the unchanged pool with
count 0; its count equals the number of proxies actually added; and a
blank or `#`-comment line is skipped without affecting the result. -/
theorem proxy_pool_error_handling (pool : List Proxy) (proxy_url : List Char)
    (p : ParsedUrl) (lines : List (List Char)) (l0 : List Char) :
    (validate_proxy_url proxy_url = false → add_proxy pool proxy_url = (pool, false))
    ∧ (pyUrlparse proxy_url = some p →
        (PROXY_SCHEMES.any (fun s => s == p.scheme)) = false →
        add_proxy pool proxy_url = (pool, false))
    ∧ (proxy_url ∈ pool.map Proxy.url → add_proxy pool proxy_url = (pool, false))
    ∧ (load_from_file pool none = (pool, 0))
    ∧ ((load_from_file pool (some lines)).1.length
        = pool.length + (load_from_file pool (some lines)).2)
    ∧ ((pyStrip l0 = [] ∨ isPre ['#'] (pyStrip l0) = true) →
        load_from_file pool (some (l0 :: lines)) = load_from_file pool (some lines)) := by
  refine ⟨?_, ?_, ?_, rfl, ?_, ?_⟩
  · intro hv
    simp [add_proxy, hv]
  · intro hp hs
    by_cases hv : validate_proxy_url proxy_url = true
    · simp [add_proxy, hv, hp, hs]
    · simp [add_proxy, hv]
  · intro hmem
    have hany : pool.any (fun q => q.url == proxy_url) = true := by
      rw [List.any_eq_true]
      obtain ⟨q, hq, hqu⟩ := List.mem_map.mp hmem
      exact ⟨q, hq, by simp [hqu]⟩
    by_cases hv : validate_proxy_url proxy_url = true
    · cases hpp : pyUrlparse proxy_url with
      | none => simp [add_proxy, hv, hpp]
      | some parsed =>
        by_cases hs : (PROXY_SCHEMES.any (fun s => s == parsed.scheme)) = true
        · simp [add_proxy, hv, hpp, hs, hany]
        · simp [add_proxy, hv, hpp, hs]
    · simp [add_proxy, hv]
  · have h := load_foldl_length lines (pool, 0)
    simpa [load_from_file] using h
  · intro hskip
    show (l0 :: lines).foldl loadStep (pool, 0) = load_from_file pool (some lines)
    rw [List.foldl_cons, loadStep_skip (pool, 0) l0 hskip]
    rfl

/-- A parse of `ftp://x`, whose scheme is unsupported. -/
def ftpParse : ParsedUrl :=
  ⟨['f', 't', 'p'], ['x'], ['x'], none, none, none⟩

/-- A pool entry whose URL is `ftp://x` (for the duplicate branch). -/
def ftpProxy : Proxy :=
  { url := ['f', 't', 'p', ':', '/', '/', 'x'], ptype := ['f', 't', 'p'],
    host := ['x'], port := 1080, username := none, password := none,
    stats := ProxyStats.fresh }

/-- Witness for C9: each implication discharged at a concrete input —
an unsupported-scheme URL against the empty pool, the same URL against a
pool already containing it, the missing file, a two-line file, and a
leading blank line. -/
theorem proxy_pool_error_handling_witness :
    add_proxy [] ftpProxy.url = ([], false)
    ∧ add_proxy [ftpProxy] ftpProxy.url = ([ftpProxy], false)
    ∧ load_from_file [] none = ([], 0)
    ∧ ((load_from_file [] (some [ftpProxy.url, ['#']])).1.length
        = ([] : List Proxy).length + (load_from_file [] (some [ftpProxy.url, ['#']])).2)
    ∧ load_from_file [] (some ([] :: [ftpProxy.url]))
        = load_from_file [] (some [ftpProxy.url]) :=
  ⟨(proxy_pool_error_handling [] ftpProxy.url ftpParse [] []).2.1 (by decide) (by decide),
   (proxy_pool_error_handling [ftpProxy] ftpProxy.url ftpParse [] []).2.2.1 (by decide),
   (proxy_pool_error_handling [] ftpProxy.url ftpParse [] []).2.2.2.1,
   (proxy_pool_error_handling [] ftpProxy.url ftpParse [ftpProxy.url, ['#']] []).2.2.2.2.1,
   (proxy_pool_error_handling [] ftpProxy.url ftpParse [ftpProxy.url] []).2.2.2.2.2
     (Or.inl (by decide))⟩

/-! ## scripts/path_fuzzer.py : PathFuzzer

The Python `set` accumulated by `fuzz_path` is modelled as an
insertion-ordered duplicate-free list (`addVar`): within one process a
CPython set of the same strings inserted in the same order iterates
deterministically, and the claims are about membership and size only. -/

def stripSlashes (s : List Char) : List Char :=
  ((s.dropWhile (fun c => c == '/')).reverse.dropWhile (fun c => c == '/')).reverse

/-- Python `str.split(sep)` for a one-character separator. -/
def splitOnChar (sep : Char) : List Char → List (List Char)
  | [] => [[]]
  | c :: rest =>
    let r := splitOnChar sep rest
    if c == sep then [] :: r
    else
      match r with
      | [] => [[c]]
      | h :: t => (c :: h) :: t

def upperL (s : List Char) : List Char := s.map Char.toUpper

/-- `basename.rsplit('.', 1)` preceded by the `'.' in basename` test:
the name before the last dot and the original extension with its dot
(empty when there is no dot). -/
def dotSplit (basename : List Char) : List Char × List Char :=
  match splitLast '.' basename with
  | some (name, ext) => (name, '.' :: ext)
  | none => (basename, [])

/-- Python `str.capitalize()`: first character upper, rest lower. -/
def pyCapitalize : List Char → List Char
  | [] => []
  | c :: rest => Char.toUpper c :: rest.map Char.toLower

def underscoreParts (s : List Char) : List (List Char) :=
  splitOnChar '_' (s.map (fun c => if c == '-' then '_' else c))

/-- `PathFuzzer._to_camel_case` (path_fuzzer.py lines 183-185). -/
def toCamelCase (s : List Char) : List Char :=
  (underscoreParts s).foldl (fun acc w => acc ++ pyCapitalize w) []

/-- `PathFuzzer._to_title_case` (path_fuzzer.py lines 187-189). -/
def toTitleCase (s : List Char) : List Char :=
  List.intercalate ['_'] ((underscoreParts s).map pyCapitalize)

/-- `set.add`: append if not already present. -/
def addVar (l : List (List Char)) (x : List Char) : List (List Char) :=
  if x ∈ l then l else l ++ [x]

def addVars (l : List (List Char)) (xs : List (List Char)) : List (List Char) :=
  xs.foldl addVar l

/-- `PathFuzzer` configuration (path_fuzzer.py lines 9-39), with the
depth-derived extension lists precomputed as `__init__` does. -/
structure PathFuzzer where
  depth : ℕ
  include_extensions : Bool
  include_backups : Bool
  include_case_variations : Bool
  include_separator_variations : Bool
  max_variations_per_path : ℕ
  extensions : List (List Char)
  backup_extensions : List (List Char)
  deriving Repr, DecidableEq

/-- `FUZZING_EXTENSIONS` (constants.py lines 61-64). -/
def FUZZING_EXTENSIONS : List (List Char) :=
  [['.', 'p', 'h', 'p'], ['.', 'a', 's', 'p'], ['.', 'a', 's', 'p', 'x'],
   ['.', 'j', 's', 'p'], ['.', 'c', 'f', 'm'], ['.', 'h', 't', 'm', 'l'],
   ['.', 'h', 't', 'm'], ['.', 's', 'h', 't', 'm', 'l'], ['.', 'p', 'y'],
   ['.', 'r', 'b']]

/-- `BACKUP_EXTENSIONS` (constants.py lines 66-69). -/
def BACKUP_EXTENSIONS : List (List Char) :=
  [['.', 'b', 'a', 'k'], ['.', 'o', 'l', 'd'], ['.', 'b', 'a', 'c', 'k', 'u', 'p'],
   ['.', 'o', 'r', 'i', 'g'], ['.', 's', 'a', 'v', 'e'], ['.', 't', 'm', 'p'],
   ['.', 't', 'e', 'm', 'p'], ['.', 's', 'w', 'p'], ['~'], ['.', 'c', 'o', 'p', 'y']]

/-- `PathFuzzer.__init__` (path_fuzzer.py lines 11-39). -/
def PathFuzzer.init (depth : ℕ) (ie ib ic isep : Bool) (maxv : ℕ) : PathFuzzer :=
  let d := max 1 (min depth 3)
  { depth := d
    include_extensions := ie
    include_backups := ib
    include_case_variations := ic
    include_separator_variations := isep
    max_variations_per_path := maxv
    extensions :=
      if d = 1 then [['.', 'p', 'h', 'p'], ['.', 'h', 't', 'm', 'l'], ['.', 'a', 's', 'p']]
      else if d = 2 then
        [['.', 'p', 'h', 'p'], ['.', 'h', 't', 'm', 'l'], ['.', 'a', 's', 'p'],
         ['.', 'a', 's', 'p', 'x'], ['.', 'j', 's', 'p'], ['.', 'h', 't', 'm']]
      else FUZZING_EXTENSIONS
    backup_extensions :=
      if d = 1 then [['.', 'b', 'a', 'k'], ['.', 'o', 'l', 'd']]
      else if d = 2 then
        [['.', 'b', 'a', 'k'], ['.', 'o', 'l', 'd'], ['.', 'b', 'a', 'c', 'k', 'u', 'p'],
         ['.', 'o', 'r', 'i', 'g']]
      else BACKUP_EXTENSIONS }

/-- The fuzzer with all keyword defaults (depth 1, every axis on,
`max_variations_per_path = 50`). -/
def fuzzDefault : PathFuzzer := PathFuzzer.init 1 true true true true 50

/-- `PathFuzzer.fuzz_path` (path_fuzzer.py lines 41-96). -/
def fuzz_path (f : PathFuzzer) (path0 : List Char) : List (List Char) :=
  let v0 : List (List Char) := [path0]
  let path := stripSlashes path0
  let parts := splitOnChar '/' path
  let basename := parts.getLastD path
  let ne := dotSplit basename
  let name := ne.1
  let original_ext := ne.2
  let v1 :=
    if f.include_extensions then
      f.extensions.foldl (fun acc ext =>
        let new_basename := name ++ ext
        let acc1 := addVar acc (if 1 < parts.length
          then List.intercalate ['/'] parts.dropLast ++ ('/' :: new_basename)
          else new_basename)
        addVar acc1 (if 1 < parts.length
          then List.intercalate ['/'] parts.dropLast ++ ('/' :: name)
          else name)) v0
    else v0
  let v2 :=
    if f.include_backups then
      f.backup_extensions.foldl (fun acc backup_ext =>
        let acc1 := addVar acc (path ++ backup_ext)
        if original_ext ≠ [] then
          let base_path := path.take (path.length - original_ext.length)
          addVar (addVar acc1 (base_path ++ backup_ext))
            (base_path ++ backup_ext ++ original_ext)
        else acc1) v1
    else v1
  let v3 :=
    if f.include_case_variations then
      addVars v2 [lowerL path, upperL path, toCamelCase path, toTitleCase path]
    else v2
  let v4 :=
    if f.include_separator_variations then
      addVars v3 [path.map (fun c => if c == '_' then '-' else c),
                  path.map (fun c => if c == '-' then '_' else c),
                  path.filter (fun c => ¬ (c == '_' || c == '-'))]
    else v3
  v4.take f.max_variations_per_path

/-! ### C5 lemmas -/

/-- C5: with the default fuzzer, `fuzz_path "admin"` contains
`"admin.php"`, `"admin.bak"` and `"ADMIN"`; for every input the result
length never exceeds `max_variations_per_path`; and two calls on the
same input yield the same list (the embedding is a pure function, as is
one CPython process's behaviour). -/
theorem fuzz_path_expected (p : List Char) :
    ['a', 'd', 'm', 'i', 'n', '.', 'p', 'h', 'p'] ∈ fuzz_path fuzzDefault ['a', 'd', 'm', 'i', 'n']
    ∧ ['a', 'd', 'm', 'i', 'n', '.', 'b', 'a', 'k'] ∈ fuzz_path fuzzDefault ['a', 'd', 'm', 'i', 'n']
    ∧ ['A', 'D', 'M', 'I', 'N'] ∈ fuzz_path fuzzDefault ['a', 'd', 'm', 'i', 'n']
    ∧ (fuzz_path fuzzDefault p).length ≤ fuzzDefault.max_variations_per_path
    ∧ fuzz_path fuzzDefault p = fuzz_path fuzzDefault p := by
  refine ⟨by decide, by decide, by decide, ?_, rfl⟩
  unfold fuzz_path
  exact List.length_take_le _ _

/-! ## scripts/detection.py : AdvancedDetector.analyze_admin_potential -/

/-- The fixed boosts of the five `admin_patterns` regexes
(detection.py lines 306-312). -/
def admin_pattern_boosts : List ℚ := [15/100, 15/100, 2/10, 15/100, 1/10]

/-- The per-feature boost of the seven `security_patterns`
(detection.py line 332). -/
def security_feature_boost : ℚ := 2/100

/-- `AdvancedDetector.analyze_admin_potential` (detection.py lines
281-334), with the outcome of every content/header/url test abstracted
to its boolean result: `endpointAdminHits` holds, per endpoint type, the
test "endpoints were detected and one of their URLs contains 'admin'"
(lines 297-304, four entries in the code), `patternHits` the five
admin-regex search results (lines 314-317), `securityHits` the seven
security-feature tests (lines 329-332).  The returned boost is the
weighted sum clamped to `0.4`; the arithmetic is exactly the source's. -/
def analyze_admin_potential (endpointAdminHits patternHits securityHits : List Bool) : ℚ :=
  let eboost : ℚ := ((endpointAdminHits.countP id : ℕ) : ℚ) * (1/10)
  let pboost : ℚ :=
    ((admin_pattern_boosts.zip patternHits).filter (fun x => x.2)).foldl
      (fun a x => a + x.1) 0
  let sboost : ℚ := ((securityHits.countP id : ℕ) : ℚ) * security_feature_boost
  min (eboost + pboost + sboost) (2/5)

/-! ### C6 lemmas -/

theorem foldl_add_nonneg (l : List (ℚ × Bool)) (hl : ∀ x ∈ l, 0 ≤ x.1) :
    ∀ a : ℚ, 0 ≤ a → 0 ≤ l.foldl (fun a x => a + x.1) a := by
  induction l with
  | nil => intro a ha; simpa using ha
  | cons x xs ih =>
    intro a ha
    rw [List.foldl_cons]
    exact ih (fun y hy => hl y (List.mem_cons_of_mem _ hy)) (a + x.1)
      (add_nonneg ha (hl x (List.mem_cons_self _ _)))

/-- C6: for every combination of detector outcomes, the confidence boost
returned by `analyze_admin_potential` is at most `0.4` and never
negative. -/
theorem analyze_admin_potential_clamped (e p s : List Bool) :
    0 ≤ analyze_admin_potential e p s ∧ analyze_admin_potential e p s ≤ 2/5 := by
  unfold analyze_admin_potential
  constructor
  · apply le_min
    · have he : (0 : ℚ) ≤ ((e.countP id : ℕ) : ℚ) * (1/10) := by positivity
      have hs : (0 : ℚ) ≤ ((s.countP id : ℕ) : ℚ) * security_feature_boost := by
        have : (0 : ℚ) ≤ security_feature_boost := by norm_num [security_feature_boost]
        positivity
      have hp : (0 : ℚ) ≤
          ((admin_pattern_boosts.zip p).filter (fun x => x.2)).foldl
            (fun a x => a + x.1) 0 := by
        apply foldl_add_nonneg _ _ 0 le_rfl
        intro x hx
        have hx' : x ∈ admin_pattern_boosts.zip p := List.mem_of_mem_filter hx
        have hx1 : x.1 ∈ admin_pattern_boosts := (List.of_mem_zip hx').1
        simp only [admin_pattern_boosts, List.mem_cons, List.not_mem_nil, or_false] at hx1
        rcases hx1 with h | h | h | h | h <;> rw [h] <;> norm_num
      linarith
    · norm_num
  · exact min_le_right _ _

/-! ## finder.py : stealth-mode path-set shaping -/

/-- `k in s` for Python strings: `sub` occurs contiguously in the list. -/
def hasSub (sub : List Char) : List Char → Bool
  | [] => isPre sub []
  | c :: rest => isPre sub (c :: rest) || hasSub sub rest

/-- The `admin_keywords` list of `scan_target` (finder.py line 109). -/
def ADMIN_FILTER_KEYWORDS : List (List Char) :=
  [['a', 'd', 'm', 'i', 'n'],
   ['a', 'd', 'm', 'i', 'n', 'i', 's', 't', 'r', 'a', 't', 'o', 'r'],
   ['d', 'a', 's', 'h', 'b', 'o', 'a', 'r', 'd'],
   ['p', 'a', 'n', 'e', 'l'],
   ['c', 'o', 'n', 't', 'r', 'o', 'l'],
   ['l', 'o', 'g', 'i', 'n'],
   ['c', 'p']]

/-- `any(keyword in p.lower() for keyword in admin_keywords)`
(finder.py line 110). -/
def pathMatchesAdmin (p : List Char) : Bool :=
  ADMIN_FILTER_KEYWORDS.any (fun k => hasSub k (lowerL p))

/-- The stealth-mode shaping in `scan_target` (finder.py lines 107-121):
with more than 500 candidates, keep the first 300 admin-keyword matches
plus up to 200 of the shuffled distinct non-matches.  The unseeded
`random.shuffle` over `list(set(paths) - set(prioritized_paths))` is
modelled by the caller passing `shuffled`, an arbitrary permutation of
the deduplicated non-matching list. -/
def stealthSelect (paths shuffled : List (List Char)) : List (List Char) :=
  if 500 < paths.length then
    (paths.filter pathMatchesAdmin).take 300 ++ shuffled.take 200
  else paths

/-! ### C4 lemmas -/

/-- C4: in stealth mode with more than 500 candidates, the dispatched
list is the keyword matches truncated to 300 followed by exactly
`min(200, number of distinct non-matching paths)` shuffled non-matching
paths; with 600 duplicate-free candidates of which 50 match, that is
250 paths; and the total never exceeds 500. -/
theorem stealth_selection (paths shuffled : List (List Char))
    (hlen : 500 < paths.length)
    (hperm : List.Perm shuffled (paths.filter (fun p => ! pathMatchesAdmin p)).dedup) :
    stealthSelect paths shuffled
        = (paths.filter pathMatchesAdmin).take 300 ++ shuffled.take 200
    ∧ (shuffled.take 200).length
        = min 200 ((paths.filter (fun p => ! pathMatchesAdmin p)).dedup).length
    ∧ (∀ q ∈ shuffled.take 200, pathMatchesAdmin q = false)
    ∧ (stealthSelect paths shuffled).length ≤ 500
    ∧ (paths.Nodup → paths.length = 600 → (paths.filter pathMatchesAdmin).length = 50 →
        (stealthSelect paths shuffled).length = 250) := by
  have hsel : stealthSelect paths shuffled
      = (paths.filter pathMatchesAdmin).take 300 ++ shuffled.take 200 := by
    simp [stealthSelect, hlen]
  have hslen : (shuffled.take 200).length
      = min 200 ((paths.filter (fun p => ! pathMatchesAdmin p)).dedup).length := by
    rw [List.length_take, hperm.length_eq]
  refine ⟨hsel, hslen, ?_, ?_, ?_⟩
  · intro q hq
    have hq1 : q ∈ shuffled := List.mem_of_mem_take hq
    have hq2 : q ∈ (paths.filter (fun p => ! pathMatchesAdmin p)).dedup := hperm.mem_iff.mp hq1
    have hq3 : q ∈ paths.filter (fun p => ! pathMatchesAdmin p) := List.mem_dedup.mp hq2
    have := (List.mem_filter.mp hq3).2
    simpa using this
  · rw [hsel, List.length_append]
    have h1 := List.length_take_le 300 (paths.filter pathMatchesAdmin)
    have h2 := List.length_take_le 200 shuffled
    omega
  · intro hnd h600 h50
    have hfn : (paths.filter (fun p => ! pathMatchesAdmin p)).length = 550 := by
      have := List.length_eq_length_filter_add (l := paths) pathMatchesAdmin
      omega
    have hded : (paths.filter (fun p => ! pathMatchesAdmin p)).dedup
        = paths.filter (fun p => ! pathMatchesAdmin p) :=
      (hnd.filter _).dedup
    rw [hsel, List.length_append, List.length_take, List.length_take, hperm.length_eq,
      hded, hfn, h50]
    decide

def digitChar (d : ℕ) : Char :=
  ['0', '1', '2', '3', '4', '5', '6', '7', '8', '9'].getD d '0'

def adminPathAt (i : ℕ) : List Char :=
  ['a', 'd', 'm', 'i', 'n', digitChar (i / 10), digitChar (i % 10)]

def plainPathAt (i : ℕ) : List Char :=
  ['x', digitChar (i / 100), digitChar (i / 10 % 10), digitChar (i % 10)]

/-- A duplicate-free list of 600 paths: 50 containing `admin` and 550
non-matching, indexed by decimal digits. -/
def c4paths : List (List Char) :=
  (List.range 50).map adminPathAt ++ (List.range 550).map plainPathAt

theorem digitChar_inj : ∀ a < 10, ∀ b < 10, digitChar a = digitChar b → a = b := by decide

theorem c4paths_nodup : c4paths.Nodup := by
  have hA : ((List.range 50).map adminPathAt).Nodup := by
    apply List.Nodup.map_on _ (List.nodup_range 50)
    intro x hx y hy hxy
    simp only [List.mem_range] at hx hy
    simp only [adminPathAt, List.cons.injEq, and_true, true_and] at hxy
    have e1 := digitChar_inj (x / 10) (by omega) (y / 10) (by omega) hxy.1
    have e2 := digitChar_inj (x % 10) (by omega) (y % 10) (by omega) hxy.2
    omega
  have hB : ((List.range 550).map plainPathAt).Nodup := by
    apply List.Nodup.map_on _ (List.nodup_range 550)
    intro x hx y hy hxy
    simp only [List.mem_range] at hx hy
    simp only [plainPathAt, List.cons.injEq, and_true, true_and] at hxy
    have e1 := digitChar_inj (x / 100) (by omega) (y / 100) (by omega) hxy.1
    have e2 := digitChar_inj (x / 10 % 10) (by omega) (y / 10 % 10) (by omega) hxy.2.1
    have e3 := digitChar_inj (x % 10) (by omega) (y % 10) (by omega) hxy.2.2
    omega
  have hD : List.Disjoint ((List.range 50).map adminPathAt)
      ((List.range 550).map plainPathAt) := by
    intro a haA haB
    obtain ⟨i, _, hi⟩ := List.mem_map.mp haA
    obtain ⟨j, _, hj⟩ := List.mem_map.mp haB
    rw [← hi] at hj
    simp only [adminPathAt, plainPathAt, List.cons.injEq] at hj
    exact absurd hj.1 (by decide)
  exact List.nodup_append.mpr ⟨hA, hB, hD⟩

set_option maxRecDepth 100000

set_option maxHeartbeats 4000000

/-- Witness for C4: the 600-path instance, with the shuffle taken as the
identity permutation of the deduplicated non-matching list. -/
theorem stealth_selection_witness :
    (stealthSelect c4paths ((c4paths.filter (fun p => ! pathMatchesAdmin p)).dedup)).length
      = 250 :=
  (stealth_selection c4paths ((c4paths.filter (fun p => ! pathMatchesAdmin p)).dedup)
      (by simp [c4paths]) (List.Perm.refl _)).2.2.2.2
    c4paths_nodup (by simp [c4paths]) (by decide)

set_option maxRecDepth 512

set_option maxHeartbeats 200000

end FindAdmin
